import Mathlib

/-!
# Worker listener lifecycle (`internal/servers/worker/listeners.go`)

A shallow embedding of `Worker.startListeners` and `Worker.stopListeners`.

Calls into collaborators (the ALPN multiplexer, `workerTLS`, `net/http`) are
recorded as an ordered list of `Event`s; their outcomes are supplied by the
model of the collaborator (fields of `ALPNMux`, `Worker.workerTLS`, the
`Shutdown` outcome function).  Pointers to `http.Server` and to the
multiplexer are modelled by an address (`addr`), so that two distinct
objects with equal contents stay distinct.

* `startListeners` is sequential: its closures capture `server` and `l`, which
  are declared inside the loop bodies, and they are only run by the final
  loop, where each launches `go server.Serve(l)` (recorded as `Event.Serve`).
* `stopListeners` starts one goroutine per listener that holds a server; the
  goroutine reads the range variable `ln`, so what it shuts down depends on
  when it runs.  That is the parameter `sched` (see `Lag`).
* The errors returned by collaborators are ordinary errors, not
  `*multierror.Error` aggregates (which `multierror.Append` would flatten).
-/

namespace Listeners

/-! ## Data model -/

/-- Go `time.Duration`: a signed count of nanoseconds. -/
abbrev Duration := Int

/-- Go `time.Second`. -/
def Second : Duration := 1000000000

/-- Go `time.Minute`. -/
def Minute : Duration := 60 * Second

/-- Go `error` values that are not nil: an error made from a message
(`errors.New`, `fmt.Errorf` without `%w`), or `fmt.Errorf` with a `%w` verb
wrapping a cause behind a prefix.  Errors returned by collaborators are
arbitrary values of this type. -/
inductive GoError where
  | text (msg : String)
  | wrapped (pfx : String) (cause : GoError)
  deriving DecidableEq, Repr

/-- Go method `Error()`: the message of an error. -/
def GoError.Error : GoError → String
  | .text msg => msg
  | .wrapped pfx cause => pfx ++ cause.Error

/-- Type `*multierror.Error` of go-multierror, when not nil: the list `Errors`. -/
structure MultiError where
  Errors : List GoError
  deriving DecidableEq, Repr

/-- Function `multierror.Append(err, e)` for `err` of type `*multierror.Error`
(`none` is the nil pointer) and a non-nil `e` that is not itself a
`*multierror.Error`: a nil `err` is initialised, then `e` is appended. -/
def Append (err : Option MultiError) (e : GoError) : Option MultiError :=
  match err with
  | none => some { Errors := [e] }
  | some m => some { Errors := m.Errors ++ [e] }

/-- Method `(*multierror.Error).ErrorOrNil`: nil for a nil receiver or an
empty `Errors`, the receiver otherwise. -/
def ErrorOrNil (err : Option MultiError) : Option MultiError :=
  match err with
  | none => none
  | some m => if m.Errors.length = 0 then none else some m

/-- The errors held by a `*multierror.Error` (none for nil). -/
def errorsOf (err : Option MultiError) : List GoError :=
  match err with
  | none => []
  | some m => m.Errors

/-- A `net.Listener` handed out by the multiplexer. -/
abbrev NetListener := Nat

/-- A `*tls.Config`. -/
abbrev TLSConfig := Nat

/-- The peering information returned by `workerTLS`. -/
abbrev PeeringInfo := Nat

/-- A `context.Context`. -/
abbrev Context := Nat

/-- The fields of the listener configuration read by this file. -/
structure ListenerConfig where
  Address : String
  TLSDisable : Bool
  HTTPReadHeaderTimeout : Duration
  HTTPReadTimeout : Duration
  HTTPWriteTimeout : Duration
  HTTPIdleTimeout : Duration
  MaxRequestDuration : Duration
  deriving DecidableEq, Repr

/-- An `http.Server` as built by `startListeners`; `addr` is the address of
the allocated object. -/
structure HTTPServer where
  addr : Nat
  Handler : Nat
  ReadHeaderTimeout : Duration
  ReadTimeout : Duration
  WriteTimeout : Duration
  IdleTimeout : Duration
  ErrorLog : Nat
  BaseContext : Context
  deriving DecidableEq, Repr

/-- The multiplexer `*alpnmux.ALPNMux` of one listener: its address and the
outcome of each call this file makes on it.  `GetListener` returns nil
(`none`) when no sub-listener exists for the protocol. -/
structure ALPNMux where
  addr : Nat
  GetListener : String → Option NetListener
  RegisterProto : String → TLSConfig → Except GoError NetListener
  Close : Option GoError

/-- One element of `c.conf.Listeners`, a slice of pointers: the assignment
`ln.HTTPServer = server` of `startListeners` is made on the listener itself
and is what `stopListeners` later reads. -/
structure ServerListener where
  Config : ListenerConfig
  Mux : ALPNMux
  HTTPServer : Option HTTPServer

/-- The argument `workerTLSOpts` of `workerTLS`. -/
structure workerTLSOpts where
  Address : String
  Protos : List String
  deriving DecidableEq, Repr

/-- The field `c.conf`. -/
structure Config where
  Listeners : List ServerListener
  Logger : Nat

/-- The worker: its configuration, its base context, and the two methods
of the worker that this file calls and that live in other files
(`c.Handler`, `c.workerTLS`), taken as functions. -/
structure Worker where
  conf : Config
  baseContext : Context
  Handler : ListenerConfig → Nat
  workerTLS : workerTLSOpts → Except GoError (TLSConfig × PeeringInfo)

/-- A call made to a collaborator. -/
inductive Event where
  | GetListener (mux : Nat) (proto : String)
  | WorkerTLS (opts : workerTLSOpts)
  | RegisterProto (mux : Nat) (proto : String) (conf : TLSConfig)
  | Serve (server : HTTPServer) (l : NetListener)
  | Shutdown (server : HTTPServer) (parent : Context) (timeout : Duration)
      (result : Option GoError)
  | Close (mux : Nat)
  deriving DecidableEq, Repr

/-- A staged closure `func() { go server.Serve(l) }`. -/
structure StartAction where
  server : HTTPServer
  l : NetListener
  deriving DecidableEq, Repr

/-! ## startListeners -/

/-- Constant `alpnmux.NoProto`, the protocol name of plaintext connections. -/
def NoProto : String := "(none)"

/-- The protocol registered for the worker. -/
def workerProto : String := "watchtower-worker-v1"

/-- The slice `protos` of the TLS branch. -/
def protos : List String := ["", "http/1.1", "h2"]

/-- Verb `%q` of `fmt` on a string none of whose characters needs an escape
(true of every element of `protos`): the string between double quotes. -/
def quote (s : String) : String :=
  String.singleton (Char.ofNat 34) ++ s ++ String.singleton (Char.ofNat 34)

/-- The error `fmt.Errorf("could not get tls proto %q listener", v)`. -/
def tlsProtoError (v : String) : GoError :=
  .text ("could not get tls proto " ++ quote v ++ " listener")

/-- Lines 40-63: the server literal, then the four overrides. -/
def newServer (c : Worker) (addr : Nat) (cfg : ListenerConfig) : HTTPServer :=
  let server : HTTPServer :=
    { addr := addr
      Handler := c.Handler cfg
      ReadHeaderTimeout := 10 * Second
      ReadTimeout := 30 * Second
      WriteTimeout := 0
      IdleTimeout := 5 * Minute
      ErrorLog := c.conf.Logger
      BaseContext := c.baseContext }
  let server :=
    if cfg.HTTPReadHeaderTimeout > 0 then
      { server with ReadHeaderTimeout := cfg.HTTPReadHeaderTimeout } else server
  let server :=
    if cfg.HTTPReadTimeout > 0 then
      { server with ReadTimeout := cfg.HTTPReadTimeout } else server
  let server :=
    if cfg.HTTPWriteTimeout > 0 then
      { server with WriteTimeout := cfg.HTTPWriteTimeout } else server
  let server :=
    if cfg.HTTPIdleTimeout > 0 then
      { server with IdleTimeout := cfg.HTTPIdleTimeout } else server
  server

/-- The variables of `startListeners` that the loop updates: `retErr`,
`servers`, and the calls made so far. -/
structure PrepState where
  retErr : Option MultiError
  servers : List StartAction
  trace : List Event
  deriving DecidableEq, Repr

/-- Lines 79-86: one iteration of the loop over `protos`. -/
def protoStep (ln : ServerListener) (server : HTTPServer) (st : PrepState)
    (v : String) : PrepState :=
  let st := { st with trace := st.trace ++ [Event.GetListener ln.Mux.addr v] }
  match ln.Mux.GetListener v with
  | none => { st with retErr := Append st.retErr (tlsProtoError v) }
  | some l => { st with servers := st.servers ++ [{ server := server, l := l }] }

/-- Lines 90-107: `workerTLS`, `RegisterProto`, and the staging of the worker
sub-listener. -/
def workerStep (c : Worker) (ln : ServerListener) (server : HTTPServer)
    (st : PrepState) : PrepState :=
  let opts : workerTLSOpts := { Address := ln.Config.Address, Protos := [workerProto] }
  let st := { st with trace := st.trace ++ [Event.WorkerTLS opts] }
  match c.workerTLS opts with
  | .error err =>
    { st with retErr := Append st.retErr (.wrapped "error getting TLS configuration: " err) }
  | .ok (workerTLSConfig, _) =>
    let st :=
      { st with trace := st.trace ++ [Event.RegisterProto ln.Mux.addr workerProto workerTLSConfig] }
    match ln.Mux.RegisterProto workerProto workerTLSConfig with
    | .error err =>
      { st with
        retErr := Append st.retErr (.wrapped "error getting sub-listener for worker proto: " err) }
    | .ok l => { st with servers := st.servers ++ [{ server := server, l := l }] }

/-- Lines 65-110: the body of the loop over the listeners after the server
is built; a `continue` ends the body. -/
def listenerBody (c : Worker) (ln : ServerListener) (server : HTTPServer)
    (st : PrepState) : PrepState :=
  if ln.Config.TLSDisable then
    let st := { st with trace := st.trace ++ [Event.GetListener ln.Mux.addr NoProto] }
    match ln.Mux.GetListener NoProto with
    | none => { st with retErr := Append st.retErr (.text "could not get non-tls listener") }
    | some l =>
      workerStep c ln server { st with servers := st.servers ++ [{ server := server, l := l }] }
  else
    workerStep c ln server (protos.foldl (protoStep ln server) st)

/-- Lines 19-111: the loop over `c.conf.Listeners`.  The server of each
iteration is allocated at the next free address `heap`; it is stored in
the listener before any resolution step (line 50). -/
def prepare (c : Worker) (heap : Nat) (st : PrepState) :
    List ServerListener → PrepState × List ServerListener
  | [] => (st, [])
  | ln :: rest =>
    let server := newServer c heap ln.Config
    let ln := { ln with HTTPServer := some server }
    let st := listenerBody c ln server st
    let r := prepare c (heap + 1) st rest
    (r.1, ln :: r.2)

/-- The outcome of `startListeners`: the returned error (`none` is nil), the
worker afterwards, and the calls made, in order. -/
structure StartResult where
  err : Option MultiError
  worker : Worker
  trace : List Event

/-- The variables before the loop: a nil `retErr`, no staged action. -/
def PrepState.init : PrepState := { retErr := none, servers := [], trace := [] }

/-- Method `Worker.startListeners`; `heap` is the first free address. -/
def startListeners (c : Worker) (heap : Nat) : StartResult :=
  let r := prepare c heap PrepState.init c.conf.Listeners
  let c := { c with conf := { c.conf with Listeners := r.2 } }
  match ErrorOrNil r.1.retErr with
  | some err => { err := some err, worker := c, trace := r.1.trace }
  | none =>
    { err := none
      worker := c
      trace := r.1.trace ++ r.1.servers.map (fun s => Event.Serve s.server s.l) }

/-! ## stopListeners -/

/-- When a shutdown goroutine runs.  The function literal of lines 132-137
refers to the range variable `ln` and is started with `go`.  In the Go of this
code (every version before 1.22, and every module that does not declare
1.22 or later) a range loop has one variable `ln` for all its iterations, so
the goroutine reads whatever element the loop has reached by the time it
runs: `first` is the number of further iterations the loop has begun when the
goroutine evaluates `ln.Config.MaxRequestDuration`, and `more` the number it
begins between that and the evaluation of `ln.HTTPServer`.  After the last
iteration the variable keeps the last element.  A goroutine that runs before
the loop moves on (`first = 0`, `more = 0`) sees the listener of its own
iteration, which is also what a per-iteration variable (Go 1.22) gives. -/
structure Lag where
  first : Nat
  more : Nat
  deriving DecidableEq, Repr

/-- The element the range variable holds `k` iterations after the one for
`ln`, where `rest` are the elements still to come. -/
def loopVarAfter (ln : ServerListener) (rest : List ServerListener) (k : Nat) :
    ServerListener :=
  (ln :: rest).getD (min k rest.length) ln

/-- Lines 127-139: the first loop of `stopListeners` and the goroutines it
starts, up to `serverWg.Wait()`.  The goroutine of iteration `i` runs with the
lag `sched i`, and `shut` gives what `Shutdown` returns.  The result is the
list of `Shutdown` calls in the order of the iterations that started them, or
`none` when a goroutine calls `Shutdown` through a nil `ln.HTTPServer`, which
panics. -/
def shutdownLoop (c : Worker) (sched : Nat → Lag)
    (shut : HTTPServer → Duration → Option GoError) (i : Nat) :
    List ServerListener → Option (List Event)
  | [] => some []
  | ln :: rest =>
    match ln.HTTPServer with
    | none => shutdownLoop c sched shut (i + 1) rest
    | some _ =>
      let timeout := (loopVarAfter ln rest (sched i).first).Config.MaxRequestDuration
      match (loopVarAfter ln rest ((sched i).first + (sched i).more)).HTTPServer with
      | none => none
      | some server =>
        (shutdownLoop c sched shut (i + 1) rest).map
          (fun es => Event.Shutdown server c.baseContext timeout (shut server timeout) :: es)

/-- Lines 141-146: one iteration of the loop closing the multiplexers. -/
def closeStep (st : Option MultiError × List Event) (ln : ServerListener) :
    Option MultiError × List Event :=
  let trace := st.2 ++ [Event.Close ln.Mux.addr]
  match ln.Mux.Close with
  | some err => (Append st.1 err, trace)
  | none => (st.1, trace)

/-- The outcome of `stopListeners`: the returned error and the calls made. -/
structure StopResult where
  err : Option MultiError
  trace : List Event
  deriving DecidableEq, Repr

/-- Method `Worker.stopListeners`; `none` when a shutdown goroutine panics. -/
def stopListeners (c : Worker) (sched : Nat → Lag)
    (shut : HTTPServer → Duration → Option GoError) : Option StopResult :=
  match shutdownLoop c sched shut 0 c.conf.Listeners with
  | none => none
  | some shutdowns =>
    let r := c.conf.Listeners.foldl closeStep (none, shutdowns)
    some { err := ErrorOrNil r.1, trace := r.2 }

/-- The schedule in which every goroutine reads the range variable before
the loop moves on: each one sees the listener of its own iteration. -/
def promptly : Nat → Lag := fun _ => { first := 0, more := 0 }

/-- The schedule in which every goroutine first runs after the loop has
finished, while `serverWg.Wait()` blocks. -/
def afterLoop (n : Nat) : Nat → Lag := fun _ => { first := n, more := 0 }

/-! ## Specification-side definitions -/

/-- A function on the loop variables only appends: what it adds to the
errors, the staged actions and the calls is what it produces from the
initial variables. -/
def Splits (f : PrepState → PrepState) : Prop :=
  ∀ st : PrepState,
    errorsOf (f st).retErr = errorsOf st.retErr ++ errorsOf (f PrepState.init).retErr ∧
    (f st).servers = st.servers ++ (f PrepState.init).servers ∧
    (f st).trace = st.trace ++ (f PrepState.init).trace

/-- The options passed to `workerTLS` for a listener. -/
def tlsOpts (ln : ServerListener) : workerTLSOpts :=
  { Address := ln.Config.Address, Protos := [workerProto] }

/-- The protocols whose sub-listener a listener requires: the plaintext one
when TLS is disabled, the three of `protos` otherwise. -/
def requiredProtos (cfg : ListenerConfig) : List String :=
  if cfg.TLSDisable then [NoProto] else protos

/-- The worker sub-listener of a listener, when `workerTLS` and then
`RegisterProto` succeed. -/
def workerSubListener (c : Worker) (ln : ServerListener) : Option NetListener :=
  match c.workerTLS (tlsOpts ln) with
  | .error _ => none
  | .ok (conf, _) =>
    match ln.Mux.RegisterProto workerProto conf with
    | .error _ => none
    | .ok l => some l

/-- Every resolution step of the listener succeeds: every required
sub-listener exists, `workerTLS` succeeds and `RegisterProto` succeeds. -/
def resolves (c : Worker) (ln : ServerListener) : Bool :=
  (requiredProtos ln.Config).all (fun p => (ln.Mux.GetListener p).isSome) &&
    (workerSubListener c ln).isSome

/-- Some resolution step fails on the listener: `GetListener` returns nil for
a requested protocol, `workerTLS` returns an error, or `RegisterProto`
(called with the configuration `workerTLS` returned) returns an error. -/
def stepFails (c : Worker) (ln : ServerListener) : Prop :=
  (∃ p, p ∈ requiredProtos ln.Config ∧ ln.Mux.GetListener p = none) ∨
  (∃ err, c.workerTLS (tlsOpts ln) = .error err) ∨
  (∃ conf info err, c.workerTLS (tlsOpts ln) = .ok (conf, info) ∧
    ln.Mux.RegisterProto workerProto conf = .error err)

/-- The sub-listeners a listener resolves, in the order
[protocol sub-listeners..., worker sub-listener]. -/
def resolvedSubListeners (c : Worker) (ln : ServerListener) : List NetListener :=
  (requiredProtos ln.Config).filterMap ln.Mux.GetListener ++ (workerSubListener c ln).toList

/-- The servers built for a list of listeners, the first at address `heap`. -/
def builtServers (c : Worker) (heap : Nat) : List ServerListener → List HTTPServer
  | [] => []
  | ln :: rest => newServer c heap ln.Config :: builtServers c (heap + 1) rest

/-- One serve launch per resolved sub-listener, in listener order, each on
the server built for its listener. -/
def expectedServes (c : Worker) (heap : Nat) : List ServerListener → List Event
  | [] => []
  | ln :: rest =>
    (resolvedSubListeners c ln).map (Event.Serve (newServer c heap ln.Config)) ++
      expectedServes c (heap + 1) rest

/-- Whether a call is a launch of `server.Serve`. -/
def Event.isServe : Event → Bool
  | .Serve _ _ => true
  | _ => false

/-- Whether a call is a `Shutdown`. -/
def Event.isShutdown : Event → Bool
  | .Shutdown _ _ _ _ => true
  | _ => false

/-- Whether a call is a `Close` of a multiplexer. -/
def Event.isClose : Event → Bool
  | .Close _ => true
  | _ => false

/-- The non-nil errors returned by `Close`, in listener order. -/
def closeErrors (lns : List ServerListener) : List GoError :=
  lns.filterMap (fun ln => ln.Mux.Close)

/-- The aggregate of a list of errors as `stopListeners` returns it: nil
for no error. -/
def aggregate (errs : List GoError) : Option MultiError :=
  if errs = [] then none else some { Errors := errs }

/-- The errors the lookups of the protocols `ps` record for a listener. -/
def lookupErrors (ln : ServerListener) (ps : List String) : List GoError :=
  ps.filterMap (fun v =>
    match ln.Mux.GetListener v with
    | none => some (tlsProtoError v)
    | some _ => none)

/-- The error the dedicated-protocol step records for a listener, if any. -/
def workerErrors (c : Worker) (ln : ServerListener) : List GoError :=
  match c.workerTLS (tlsOpts ln) with
  | .error err => [.wrapped "error getting TLS configuration: " err]
  | .ok (conf, _) =>
    match ln.Mux.RegisterProto workerProto conf with
    | .error err => [.wrapped "error getting sub-listener for worker proto: " err]
    | .ok _ => []

/-- The calls of the dedicated-protocol step for a listener. -/
def workerCalls (c : Worker) (ln : ServerListener) : List Event :=
  Event.WorkerTLS (tlsOpts ln) ::
    match c.workerTLS (tlsOpts ln) with
    | .error _ => []
    | .ok (conf, _) => [Event.RegisterProto ln.Mux.addr workerProto conf]

/-- The errors one listener adds to the aggregate. -/
def listenerErrors (c : Worker) (ln : ServerListener) : List GoError :=
  if ln.Config.TLSDisable then
    match ln.Mux.GetListener NoProto with
    | none => [.text "could not get non-tls listener"]
    | some _ => workerErrors c ln
  else lookupErrors ln protos ++ workerErrors c ln

/-- The actions one listener stages for its server. -/
def listenerActions (c : Worker) (server : HTTPServer) (ln : ServerListener) :
    List StartAction :=
  if ln.Config.TLSDisable then
    match ln.Mux.GetListener NoProto with
    | none => []
    | some l =>
      { server := server, l := l } ::
        (workerSubListener c ln).toList.map (fun l => { server := server, l := l })
  else
    (protos.filterMap ln.Mux.GetListener ++ (workerSubListener c ln).toList).map
      (fun l => { server := server, l := l })

/-- The calls one listener makes during preparation. -/
def listenerCalls (c : Worker) (ln : ServerListener) : List Event :=
  if ln.Config.TLSDisable then
    Event.GetListener ln.Mux.addr NoProto ::
      match ln.Mux.GetListener NoProto with
      | none => []
      | some _ => workerCalls c ln
  else protos.map (Event.GetListener ln.Mux.addr) ++ workerCalls c ln

/-- The errors a list of listeners adds to the aggregate, in order. -/
def allErrors (c : Worker) : List ServerListener → List GoError
  | [] => []
  | ln :: rest => listenerErrors c ln ++ allErrors c rest

/-- The actions a list of listeners stages, in order, the server of the
first listener being at address `heap`. -/
def allActions (c : Worker) (heap : Nat) : List ServerListener → List StartAction
  | [] => []
  | ln :: rest =>
    listenerActions c (newServer c heap ln.Config) ln ++ allActions c (heap + 1) rest

/-- The calls a list of listeners makes during preparation, in order. -/
def allCalls (c : Worker) : List ServerListener → List Event
  | [] => []
  | ln :: rest => listenerCalls c ln ++ allCalls c rest

/-- The listeners after preparation: each holds the server built for it. -/
def withServers (c : Worker) (heap : Nat) : List ServerListener → List ServerListener
  | [] => []
  | ln :: rest =>
    { ln with HTTPServer := some (newServer c heap ln.Config) } ::
      withServers c (heap + 1) rest

/-- Every shutdown goroutine finds a server on the listener the range
variable holds when it evaluates `ln.HTTPServer`, the goroutine of the first
listener of the list being the one of iteration `i`. -/
def findsServer (sched : Nat → Lag) (i : Nat) : List ServerListener → Bool
  | [] => true
  | ln :: rest =>
    (match ln.HTTPServer with
      | none => true
      | some _ =>
        (loopVarAfter ln rest ((sched i).first + (sched i).more)).HTTPServer.isSome) &&
      findsServer sched (i + 1) rest

/-- The `Shutdown` calls in which every listener that holds a server has
that server shut down, once, with its own `MaxRequestDuration`. -/
def ownShutdowns (c : Worker) (shut : HTTPServer → Duration → Option GoError)
    (lns : List ServerListener) : List Event :=
  lns.filterMap (fun ln =>
    ln.HTTPServer.map (fun server =>
      Event.Shutdown server c.baseContext ln.Config.MaxRequestDuration
        (shut server ln.Config.MaxRequestDuration)))

/-- The servers on which a serve loop is launched, in order. -/
def servedServers (trace : List Event) : List HTTPServer :=
  trace.filterMap (fun e =>
    match e with
    | .Serve server _ => some server
    | _ => none)

/-- The servers on which `Shutdown` is called, in order. -/
def shutdownServers (trace : List Event) : List HTTPServer :=
  trace.filterMap (fun e =>
    match e with
    | .Shutdown server _ _ _ => some server
    | _ => none)

/-! ## Concrete configurations -/

/-- A listener configuration with no timeout override. -/
def exConfig (address : String) (tlsDisable : Bool) (maxRequestDuration : Duration) :
    ListenerConfig :=
  { Address := address
    TLSDisable := tlsDisable
    HTTPReadHeaderTimeout := 0
    HTTPReadTimeout := 0
    HTTPWriteTimeout := 0
    HTTPIdleTimeout := 0
    MaxRequestDuration := maxRequestDuration }

/-- A multiplexer at address `a` that has a sub-listener for every protocol
except those of `missing`, whose `RegisterProto` and `Close` return the given
errors, if any. -/
def exMux (a : Nat) (missing : List String) (registerErr closeErr : Option GoError) :
    ALPNMux :=
  { addr := a
    GetListener := fun p => if p ∈ missing then none else some (10 * a + p.length)
    RegisterProto := fun _ _ =>
      match registerErr with
      | some err => .error err
      | none => .ok (10 * a + 9)
    Close := closeErr }

/-- A worker over the given listeners whose `workerTLS` succeeds. -/
def exWorker (lns : List ServerListener) : Worker :=
  { conf := { Listeners := lns, Logger := 0 }
    baseContext := 1
    Handler := fun _ => 2
    workerTLS := fun _ => .ok (3, 4) }

/-- A plaintext listener that resolves, with a 1s maximum request duration. -/
def lnPlain : ServerListener :=
  { Config := exConfig "127.0.0.1:9201" true Second, Mux := exMux 1 [] none none, HTTPServer := none }

/-- A TLS listener that resolves, with a 2s maximum request duration. -/
def lnTLS : ServerListener :=
  { Config := exConfig "127.0.0.1:9202" false (2 * Second), Mux := exMux 2 [] none none,
    HTTPServer := none }

/-- A TLS listener whose multiplexer has no sub-listener for "h2". -/
def lnNoH2 : ServerListener :=
  { Config := exConfig "127.0.0.1:9203" false Second, Mux := exMux 3 ["h2"] none none,
    HTTPServer := none }

/-- A plaintext listener whose multiplexer has no plaintext sub-listener and
whose `Close` fails. -/
def lnBroken : ServerListener :=
  { Config := exConfig "127.0.0.1:9204" true Second,
    Mux := exMux 4 [NoProto] none (some (.text "close failed")), HTTPServer := none }

/-- A configuration whose read timeout override is negative. -/
def negativeReadTimeout : ListenerConfig :=
  { exConfig "127.0.0.1:9205" true Second with HTTPReadTimeout := -1 }

/-- A started plaintext listener whose `Close` fails. -/
def lnStarted : ServerListener :=
  { Config := exConfig "127.0.0.1:9206" true (3 * Second),
    Mux := exMux 6 [] none (some (.text "mux 6: close failed")),
    HTTPServer := some (newServer (exWorker []) 60 (exConfig "127.0.0.1:9206" true (3 * Second))) }

/-- A `Shutdown` that always fails. -/
def shutdownFails : HTTPServer → Duration → Option GoError :=
  fun _ _ => some (.text "context deadline exceeded")

/-- A `Shutdown` that always succeeds. -/
def shutdownOk : HTTPServer → Duration → Option GoError :=
  fun _ _ => none

/-- The worker after a successful `startListeners` on a plaintext listener
(maximum request duration 1s) and a TLS listener (2s). -/
def startedPair : Worker :=
  (startListeners (exWorker [lnPlain, lnTLS]) 0).worker

/-- The server `startListeners` builds for `lnPlain` in `startedPair`. -/
def serverPlain : HTTPServer := newServer (exWorker []) 0 lnPlain.Config

/-- The server `startListeners` builds for `lnTLS` in `startedPair`. -/
def serverTLS : HTTPServer := newServer (exWorker []) 1 lnTLS.Config

/-- A worker with a started listener and two listeners without a server. -/
def mixedTrio : Worker := exWorker [lnStarted, lnPlain, lnBroken]

/-- A worker with two listeners that were never started. -/
def unstartedPair : Worker := exWorker [lnPlain, lnBroken]

/-! ## Lemmas on the aggregated error -/

theorem errorsOf_none : errorsOf none = [] := rfl

theorem errorsOf_Append (r : Option MultiError) (e : GoError) :
    errorsOf (Append r e) = errorsOf r ++ [e] := by
  cases r <;> simp [Append, errorsOf]

theorem ErrorOrNil_eq_none_iff (r : Option MultiError) :
    ErrorOrNil r = none ↔ errorsOf r = [] := by
  cases r with
  | none => simp [ErrorOrNil, errorsOf]
  | some m => simp [ErrorOrNil, errorsOf]

theorem ErrorOrNil_eq_aggregate (r : Option MultiError) :
    ErrorOrNil r = aggregate (errorsOf r) := by
  cases r with
  | none => simp [ErrorOrNil, errorsOf, aggregate]
  | some m =>
    cases m with
    | mk es => cases es <;> simp [ErrorOrNil, errorsOf, aggregate]

/-! ## The preparation loop only appends -/

theorem Splits.comp {f g : PrepState → PrepState} (hf : Splits f) (hg : Splits g) :
    Splits (fun st => g (f st)) := by
  intro st
  obtain ⟨a1, a2, a3⟩ := hf st
  obtain ⟨b1, b2, b3⟩ := hg (f st)
  obtain ⟨c1, c2, c3⟩ := hg (f PrepState.init)
  refine ⟨?_, ?_, ?_⟩
  · rw [b1, a1, c1, List.append_assoc]
  · rw [b2, a2, c2, List.append_assoc]
  · rw [b3, a3, c3, List.append_assoc]

theorem Splits.foldl {α : Type} (f : PrepState → α → PrepState)
    (hf : ∀ a, Splits (fun st => f st a)) (l : List α) :
    Splits (fun st => l.foldl f st) := by
  induction l with
  | nil => intro st; simp [PrepState.init, errorsOf_none]
  | cons a l ih => exact Splits.comp (hf a) ih

theorem protoStep_splits (ln : ServerListener) (server : HTTPServer) (v : String) :
    Splits (fun st => protoStep ln server st v) := by
  intro st
  unfold protoStep
  cases ln.Mux.GetListener v <;> simp [PrepState.init, errorsOf_Append, errorsOf_none]

theorem stage_splits (a : StartAction) :
    Splits (fun st => { st with servers := st.servers ++ [a] }) := by
  intro st
  simp [PrepState.init, errorsOf_none]

theorem workerStep_splits (c : Worker) (ln : ServerListener) (server : HTTPServer) :
    Splits (workerStep c ln server) := by
  intro st
  unfold workerStep
  rcases h : c.workerTLS { Address := ln.Config.Address, Protos := [workerProto] } with
    err | ⟨conf, info⟩
  · simp [h, PrepState.init, errorsOf_Append, errorsOf_none]
  · rcases h2 : ln.Mux.RegisterProto workerProto conf with err | l <;>
      simp [h, h2, PrepState.init, errorsOf_Append, errorsOf_none]

theorem listenerBody_splits (c : Worker) (ln : ServerListener) (server : HTTPServer) :
    Splits (listenerBody c ln server) := by
  unfold listenerBody
  cases ln.Config.TLSDisable with
  | true =>
    cases hget : ln.Mux.GetListener NoProto with
    | none =>
      intro st
      simp [hget, PrepState.init, errorsOf_Append, errorsOf_none]
    | some l =>
      have h1 : Splits (fun st : PrepState =>
          ({ st with trace := st.trace ++ [Event.GetListener ln.Mux.addr NoProto] } : PrepState)) := by
        intro st; simp [PrepState.init, errorsOf_none]
      have h := Splits.comp (Splits.comp h1 (stage_splits { server := server, l := l }))
        (workerStep_splits c ln server)
      simpa using h
  | false =>
    have h := Splits.comp (Splits.foldl _ (protoStep_splits ln server) protos)
      (workerStep_splits c ln server)
    simpa using h

theorem prepare_splits (c : Worker) (lns : List ServerListener) (heap : Nat) :
    Splits (fun st => (prepare c heap st lns).1) ∧
      ∀ st, (prepare c heap st lns).2 = (prepare c heap PrepState.init lns).2 := by
  induction lns generalizing heap with
  | nil =>
    refine ⟨?_, ?_⟩
    · intro st; simp [prepare, PrepState.init, errorsOf_none]
    · intro st; simp [prepare]
  | cons ln rest ih =>
    refine ⟨?_, ?_⟩
    · exact Splits.comp (listenerBody_splits c _ _) (ih (heap + 1)).1
    · intro st
      simp only [prepare]
      rw [(ih (heap + 1)).2]
      rw [(ih (heap + 1)).2 (listenerBody c _ _ PrepState.init)]

theorem prepare_append (c : Worker) (xs ys : List ServerListener) (heap : Nat)
    (st : PrepState) :
    prepare c heap st (xs ++ ys) =
      ((prepare c (heap + xs.length) (prepare c heap st xs).1 ys).1,
        (prepare c heap st xs).2 ++ (prepare c (heap + xs.length) (prepare c heap st xs).1 ys).2) := by
  induction xs generalizing heap st with
  | nil => simp [prepare]
  | cons x xs ih =>
    have e : heap + 1 + xs.length = heap + (xs.length + 1) := by omega
    rw [List.cons_append]
    simp only [prepare, List.length_cons]
    rw [ih, e]
    rfl

/-! ## What one listener adds -/

theorem foldl_protoStep_init (ln : ServerListener) (server : HTTPServer) (ps : List String) :
    errorsOf (ps.foldl (protoStep ln server) PrepState.init).retErr = lookupErrors ln ps ∧
    (ps.foldl (protoStep ln server) PrepState.init).servers =
      (ps.filterMap ln.Mux.GetListener).map (fun l => { server := server, l := l }) ∧
    (ps.foldl (protoStep ln server) PrepState.init).trace =
      ps.map (Event.GetListener ln.Mux.addr) := by
  induction ps with
  | nil => simp [PrepState.init, errorsOf_none, lookupErrors]
  | cons v ps ih =>
    obtain ⟨h1, h2, h3⟩ :=
      Splits.foldl _ (protoStep_splits ln server) ps (protoStep ln server PrepState.init v)
    obtain ⟨i1, i2, i3⟩ := ih
    simp only [List.foldl_cons]
    rw [h1, h2, h3, i1, i2, i3]
    unfold protoStep lookupErrors
    rcases hget : ln.Mux.GetListener v with _ | l <;>
      simp [hget, PrepState.init, errorsOf_Append, errorsOf_none]

theorem workerStep_init (c : Worker) (ln : ServerListener) (server : HTTPServer) :
    errorsOf (workerStep c ln server PrepState.init).retErr = workerErrors c ln ∧
    (workerStep c ln server PrepState.init).servers =
      (workerSubListener c ln).toList.map (fun l => { server := server, l := l }) ∧
    (workerStep c ln server PrepState.init).trace = workerCalls c ln := by
  unfold workerStep workerErrors workerSubListener workerCalls tlsOpts
  rcases h : c.workerTLS { Address := ln.Config.Address, Protos := [workerProto] } with
    err | ⟨conf, info⟩
  · simp [h, PrepState.init, errorsOf_Append, errorsOf_none]
  · rcases h2 : ln.Mux.RegisterProto workerProto conf with err | l <;>
      simp [h, h2, PrepState.init, errorsOf_Append, errorsOf_none]

theorem listenerBody_init (c : Worker) (ln : ServerListener) (server : HTTPServer) :
    errorsOf (listenerBody c ln server PrepState.init).retErr = listenerErrors c ln ∧
    (listenerBody c ln server PrepState.init).servers = listenerActions c server ln ∧
    (listenerBody c ln server PrepState.init).trace = listenerCalls c ln := by
  obtain ⟨w1, w2, w3⟩ := workerStep_init c ln server
  unfold listenerBody listenerErrors listenerActions listenerCalls
  rcases htls : ln.Config.TLSDisable with _ | _
  · obtain ⟨f1, f2, f3⟩ := foldl_protoStep_init ln server protos
    obtain ⟨s1, s2, s3⟩ :=
      workerStep_splits c ln server (protos.foldl (protoStep ln server) PrepState.init)
    simp only [Bool.false_eq_true, if_false]
    rw [s1, s2, s3, w1, w2, w3, f1, f2, f3]
    simp
  · rcases hget : ln.Mux.GetListener NoProto with _ | l
    · simp [hget, PrepState.init, errorsOf_Append, errorsOf_none]
    · obtain ⟨s1, s2, s3⟩ := workerStep_splits c ln server
        { retErr := none, servers := [{ server := server, l := l }],
          trace := [Event.GetListener ln.Mux.addr NoProto] }
      simp only [if_true, hget, PrepState.init, List.nil_append]
      rw [s1, s2, s3, w1, w2, w3]
      simp [errorsOf_none]

theorem prepare_init (c : Worker) (lns : List ServerListener) (heap : Nat) :
    errorsOf (prepare c heap PrepState.init lns).1.retErr = allErrors c lns ∧
    (prepare c heap PrepState.init lns).1.servers = allActions c heap lns ∧
    (prepare c heap PrepState.init lns).1.trace = allCalls c lns ∧
    (prepare c heap PrepState.init lns).2 = withServers c heap lns := by
  induction lns generalizing heap with
  | nil => simp [prepare, PrepState.init, errorsOf_none, allErrors, allActions, allCalls, withServers]
  | cons ln rest ih =>
    obtain ⟨i1, i2, i3, i4⟩ := ih (heap + 1)
    obtain ⟨b1, b2, b3⟩ := listenerBody_init c
      { ln with HTTPServer := some (newServer c heap ln.Config) } (newServer c heap ln.Config)
    obtain ⟨p, q⟩ := prepare_splits c rest (heap + 1)
    obtain ⟨p1, p2, p3⟩ := p (listenerBody c
      { ln with HTTPServer := some (newServer c heap ln.Config) } (newServer c heap ln.Config)
      PrepState.init)
    simp only [prepare, allErrors, allActions, allCalls, withServers]
    refine ⟨?_, ?_, ?_, ?_⟩
    · rw [p1, b1, i1]; rfl
    · rw [p2, b2, i2]; rfl
    · rw [p3, b3, i3]; rfl
    · rw [q, i4]

/-! ## startListeners, in closed form -/

theorem startListeners_eq (c : Worker) (heap : Nat) :
    (startListeners c heap).err = aggregate (allErrors c c.conf.Listeners) ∧
    (startListeners c heap).worker.conf.Listeners = withServers c heap c.conf.Listeners ∧
    (startListeners c heap).trace =
      allCalls c c.conf.Listeners ++
        (if allErrors c c.conf.Listeners = [] then
          (allActions c heap c.conf.Listeners).map (fun s => Event.Serve s.server s.l)
        else []) := by
  obtain ⟨h1, h2, h3, h4⟩ := prepare_init c c.conf.Listeners heap
  have hagg := ErrorOrNil_eq_aggregate (prepare c heap PrepState.init c.conf.Listeners).1.retErr
  rw [h1] at hagg
  unfold startListeners
  by_cases hnil : allErrors c c.conf.Listeners = []
  · have hn : ErrorOrNil (prepare c heap PrepState.init c.conf.Listeners).1.retErr = none := by
      rw [hagg]; simp [aggregate, hnil]
    simp only [hn, hnil, if_true]
    refine ⟨by simp [aggregate], h4, ?_⟩
    rw [h3, h2]
  · have hs : ErrorOrNil (prepare c heap PrepState.init c.conf.Listeners).1.retErr =
        some { Errors := allErrors c c.conf.Listeners } := by
      rw [hagg]; simp [aggregate, hnil]
    simp only [hs, hnil, if_false]
    refine ⟨by simp [aggregate, hnil], h4, ?_⟩
    rw [h3]; simp

theorem workerCalls_noServe (c : Worker) (ln : ServerListener) (e : Event)
    (he : e ∈ workerCalls c ln) : e.isServe = false := by
  unfold workerCalls at he
  rcases h : c.workerTLS (tlsOpts ln) with err | ⟨conf, info⟩
  · rw [h] at he
    simp only [List.mem_singleton] at he
    subst he; rfl
  · rw [h] at he
    simp only [List.mem_cons, List.mem_singleton, List.not_mem_nil, or_false] at he
    rcases he with he | he <;> subst he <;> rfl

theorem listenerCalls_noServe (c : Worker) (ln : ServerListener) (e : Event)
    (he : e ∈ listenerCalls c ln) : e.isServe = false := by
  unfold listenerCalls at he
  rcases htls : ln.Config.TLSDisable with _ | _
  · rw [htls] at he
    simp only [Bool.false_eq_true, if_false, List.mem_append, List.mem_map] at he
    rcases he with ⟨p, _, hp⟩ | he
    · subst hp; rfl
    · exact workerCalls_noServe c ln e he
  · rw [htls] at he
    simp only [if_true, List.mem_cons] at he
    rcases he with he | he
    · subst he; rfl
    · rcases hget : ln.Mux.GetListener NoProto with _ | l
      · rw [hget] at he; simp at he
      · rw [hget] at he; exact workerCalls_noServe c ln e he

theorem allCalls_noServe (c : Worker) (lns : List ServerListener) :
    (allCalls c lns).filter Event.isServe = [] := by
  induction lns with
  | nil => simp [allCalls]
  | cons ln rest ih =>
    simp only [allCalls, List.filter_append, ih, List.append_nil]
    rw [List.filter_eq_nil_iff]
    intro e he
    simp [listenerCalls_noServe c ln e he]

theorem serves_filter (as : List StartAction) :
    (as.map (fun s => Event.Serve s.server s.l)).filter Event.isServe =
      as.map (fun s => Event.Serve s.server s.l) := by
  induction as with
  | nil => simp
  | cons a as ih => simp [List.filter, Event.isServe, ih]

theorem allErrors_eq_nil_iff (c : Worker) (lns : List ServerListener) :
    allErrors c lns = [] ↔ ∀ ln, ln ∈ lns → listenerErrors c ln = [] := by
  induction lns with
  | nil => simp [allErrors]
  | cons ln rest ih => simp [allErrors, ih]

theorem workerErrors_eq_nil_iff (c : Worker) (ln : ServerListener) :
    workerErrors c ln = [] ↔ (workerSubListener c ln).isSome = true := by
  unfold workerErrors workerSubListener
  rcases h : c.workerTLS (tlsOpts ln) with err | ⟨conf, info⟩
  · simp
  · rcases h2 : ln.Mux.RegisterProto workerProto conf with err | l <;> simp [h2]

theorem lookupErrors_eq_nil_iff (ln : ServerListener) (ps : List String) :
    lookupErrors ln ps = [] ↔ ps.all (fun p => (ln.Mux.GetListener p).isSome) = true := by
  unfold lookupErrors
  rw [List.filterMap_eq_nil_iff, List.all_eq_true]
  constructor
  · intro h p hp
    have := h p hp
    rcases hget : ln.Mux.GetListener p with _ | l
    · simp [hget] at this
    · rfl
  · intro h p hp
    have := h p hp
    rcases hget : ln.Mux.GetListener p with _ | l
    · simp [hget] at this
    · rfl

theorem listenerErrors_eq_nil_iff (c : Worker) (ln : ServerListener) :
    listenerErrors c ln = [] ↔ resolves c ln = true := by
  unfold listenerErrors resolves requiredProtos
  rcases htls : ln.Config.TLSDisable with _ | _
  · simp only [Bool.false_eq_true, if_false, List.append_eq_nil, Bool.and_eq_true]
    rw [lookupErrors_eq_nil_iff, workerErrors_eq_nil_iff]
  · rcases hget : ln.Mux.GetListener NoProto with _ | l
    · simp [hget]
    · simp [hget, workerErrors_eq_nil_iff]

theorem stepFails_iff (c : Worker) (ln : ServerListener) :
    stepFails c ln ↔ resolves c ln = false := by
  unfold stepFails resolves workerSubListener
  rw [Bool.and_eq_false_iff, List.all_eq_false]
  constructor
  · rintro (⟨p, hp, hget⟩ | ⟨err, he⟩ | ⟨conf, info, err, hc, hr⟩)
    · exact Or.inl ⟨p, hp, by simp [hget]⟩
    · exact Or.inr (by simp [he])
    · exact Or.inr (by simp [hc, hr])
  · rintro (⟨p, hp, hget⟩ | h)
    · refine Or.inl ⟨p, hp, ?_⟩
      rcases hg : ln.Mux.GetListener p with _ | l
      · rfl
      · simp [hg] at hget
    · rcases hw : c.workerTLS (tlsOpts ln) with err | ⟨conf, info⟩
      · exact Or.inr (Or.inl ⟨err, rfl⟩)
      · rcases hr : ln.Mux.RegisterProto workerProto conf with err | l
        · exact Or.inr (Or.inr ⟨conf, info, err, rfl, hr⟩)
        · simp [hw, hr] at h

theorem filterMap_length_of_all {α β : Type} (f : α → Option β) (l : List α)
    (h : l.all (fun a => (f a).isSome) = true) : (l.filterMap f).length = l.length := by
  induction l with
  | nil => simp
  | cons a l ih =>
    simp only [List.all_cons, Bool.and_eq_true] at h
    rcases hf : f a with _ | b
    · simp [hf] at h
    · simp [List.filterMap_cons, hf, ih h.2]

theorem listenerActions_of_resolves (c : Worker) (server : HTTPServer) (ln : ServerListener)
    (h : resolves c ln = true) :
    listenerActions c server ln =
      (resolvedSubListeners c ln).map (fun l => { server := server, l := l }) := by
  unfold resolves requiredProtos at h
  unfold listenerActions resolvedSubListeners requiredProtos
  rcases htls : ln.Config.TLSDisable with _ | _
  · simp
  · rw [htls] at h
    rcases hget : ln.Mux.GetListener NoProto with _ | l
    · simp [hget] at h
    · simp [hget]

theorem resolvedSubListeners_length (c : Worker) (ln : ServerListener)
    (h : resolves c ln = true) :
    (resolvedSubListeners c ln).length = if ln.Config.TLSDisable then 2 else 4 := by
  unfold resolves at h
  rw [Bool.and_eq_true] at h
  obtain ⟨h1, h2⟩ := h
  unfold resolvedSubListeners
  rw [List.length_append, filterMap_length_of_all _ _ h1]
  rcases hw : workerSubListener c ln with _ | l
  · simp [hw] at h2
  · unfold requiredProtos
    rcases htls : ln.Config.TLSDisable with _ | _ <;> simp [protos]

theorem allActions_of_resolves (c : Worker) (lns : List ServerListener) (heap : Nat)
    (h : ∀ ln, ln ∈ lns → resolves c ln = true) :
    (allActions c heap lns).map (fun s => Event.Serve s.server s.l) =
      expectedServes c heap lns := by
  induction lns generalizing heap with
  | nil => simp [allActions, expectedServes]
  | cons ln rest ih =>
    have hln := h ln (List.mem_cons_self _ _)
    have hrest := ih (heap + 1) (fun x hx => h x (List.mem_cons_of_mem _ hx))
    simp only [allActions, expectedServes, List.map_append, hrest]
    rw [listenerActions_of_resolves c _ ln hln]
    simp [List.map_map, Function.comp_def]

theorem expectedServes_length (c : Worker) (lns : List ServerListener) (heap : Nat)
    (h : ∀ ln, ln ∈ lns → resolves c ln = true) :
    (expectedServes c heap lns).length =
      2 * lns.countP (fun ln => ln.Config.TLSDisable) +
        4 * lns.countP (fun ln => !ln.Config.TLSDisable) := by
  induction lns generalizing heap with
  | nil => simp [expectedServes]
  | cons ln rest ih =>
    have hln := resolvedSubListeners_length c ln (h ln (List.mem_cons_self _ _))
    have hrest := ih (heap + 1) (fun x hx => h x (List.mem_cons_of_mem _ hx))
    simp only [expectedServes, List.length_append, List.length_map, hrest, hln,
      List.countP_cons]
    rcases htls : ln.Config.TLSDisable with _ | _ <;> simp <;> omega

theorem withServers_servers (c : Worker) (lns : List ServerListener) (heap : Nat) :
    (withServers c heap lns).map (fun ln => ln.HTTPServer) =
      (builtServers c heap lns).map some := by
  induction lns generalizing heap with
  | nil => simp [withServers, builtServers]
  | cons ln rest ih => simp [withServers, builtServers, ih]

/-! ## Claims on startListeners -/

/-- C1, atomic veto.  When some resolution step fails on some listener
(`GetListener` returns nil for a requested protocol, `workerTLS` fails, or
`RegisterProto` fails), `startListeners` returns a non-nil error and launches
`server.Serve` on no sub-listener of any listener. -/
theorem startListeners_atomic_veto (c : Worker) (heap : Nat)
    (h : ∃ ln, ln ∈ c.conf.Listeners ∧ stepFails c ln) :
    (startListeners c heap).err ≠ none ∧
      (startListeners c heap).trace.filter Event.isServe = [] := by
  obtain ⟨ln, hmem, hfail⟩ := h
  obtain ⟨e1, _, e3⟩ := startListeners_eq c heap
  have hne : allErrors c c.conf.Listeners ≠ [] := by
    intro hnil
    have := (allErrors_eq_nil_iff c c.conf.Listeners).1 hnil ln hmem
    rw [listenerErrors_eq_nil_iff] at this
    rw [stepFails_iff, this] at hfail
    exact Bool.noConfusion hfail
  refine ⟨?_, ?_⟩
  · rw [e1]; simp [aggregate, hne]
  · rw [e3]; simp only [hne, if_false, List.append_nil]
    exact allCalls_noServe c _

/-- Witness of C1: a plaintext listener that resolves followed by a TLS
listener that has no "h2" sub-listener. -/
theorem startListeners_atomic_veto_witness :
    (∃ ln, ln ∈ (exWorker [lnPlain, lnNoH2]).conf.Listeners ∧
      stepFails (exWorker [lnPlain, lnNoH2]) ln) ∧
    ((startListeners (exWorker [lnPlain, lnNoH2]) 0).err ≠ none ∧
      (startListeners (exWorker [lnPlain, lnNoH2]) 0).trace.filter Event.isServe = []) :=
  ⟨⟨lnNoH2, List.mem_cons_of_mem _ (List.mem_cons_self _ _),
      Or.inl ⟨"h2", by decide, by decide⟩⟩,
    startListeners_atomic_veto (exWorker [lnPlain, lnNoH2]) 0
      ⟨lnNoH2, List.mem_cons_of_mem _ (List.mem_cons_self _ _),
        Or.inl ⟨"h2", by decide, by decide⟩⟩⟩

/-- C2, successful start.  When every listener obtains every required
sub-listener and `workerTLS` and `RegisterProto` succeed, `startListeners`
returns nil and launches one serve action per resolved sub-listener, in
listener order and within a listener in the order [protocol
sub-listeners..., worker sub-listener], each on the server built for its
listener: 2 per TLS-disabled listener and 4 per TLS-enabled listener. -/
theorem startListeners_success (c : Worker) (heap : Nat)
    (h : ∀ ln, ln ∈ c.conf.Listeners → resolves c ln = true) :
    (startListeners c heap).err = none ∧
      (startListeners c heap).trace.filter Event.isServe =
        expectedServes c heap c.conf.Listeners ∧
      ((startListeners c heap).trace.filter Event.isServe).length =
        2 * c.conf.Listeners.countP (fun ln => ln.Config.TLSDisable) +
          4 * c.conf.Listeners.countP (fun ln => !ln.Config.TLSDisable) := by
  obtain ⟨e1, _, e3⟩ := startListeners_eq c heap
  have hnil : allErrors c c.conf.Listeners = [] :=
    (allErrors_eq_nil_iff c _).2 (fun ln hln => (listenerErrors_eq_nil_iff c ln).2 (h ln hln))
  have hserve : (startListeners c heap).trace.filter Event.isServe =
      expectedServes c heap c.conf.Listeners := by
    rw [e3]
    simp only [hnil, if_true, List.filter_append, allCalls_noServe, List.nil_append,
      serves_filter]
    exact allActions_of_resolves c _ heap h
  refine ⟨?_, hserve, ?_⟩
  · rw [e1]; simp [aggregate, hnil]
  · rw [hserve]; exact expectedServes_length c _ heap h

/-- Witness of C2: a plaintext listener and a TLS listener that both resolve. -/
theorem startListeners_success_witness :
    (∀ ln, ln ∈ (exWorker [lnPlain, lnTLS]).conf.Listeners →
      resolves (exWorker [lnPlain, lnTLS]) ln = true) ∧
    ((startListeners (exWorker [lnPlain, lnTLS]) 0).err = none ∧
      (startListeners (exWorker [lnPlain, lnTLS]) 0).trace.filter Event.isServe =
        expectedServes (exWorker [lnPlain, lnTLS]) 0 (exWorker [lnPlain, lnTLS]).conf.Listeners ∧
      ((startListeners (exWorker [lnPlain, lnTLS]) 0).trace.filter Event.isServe).length =
        2 * (exWorker [lnPlain, lnTLS]).conf.Listeners.countP (fun ln => ln.Config.TLSDisable) +
          4 * (exWorker [lnPlain, lnTLS]).conf.Listeners.countP
            (fun ln => !ln.Config.TLSDisable)) :=
  have h : ∀ ln, ln ∈ (exWorker [lnPlain, lnTLS]).conf.Listeners →
      resolves (exWorker [lnPlain, lnTLS]) ln = true := by
    intro ln hln
    simp only [exWorker, List.mem_cons, List.mem_singleton, List.not_mem_nil, or_false] at hln
    rcases hln with rfl | rfl <;> decide
  ⟨h, startListeners_success (exWorker [lnPlain, lnTLS]) 0 h⟩

/-- Counterexample to C3: after a `startListeners` that returns an error, the
listener, whose `HTTPServer` was nil before the call, holds a server. -/
theorem binding_after_failed_start :
    lnBroken.HTTPServer = none ∧
      (startListeners (exWorker [lnBroken]) 0).err ≠ none ∧
      (startListeners (exWorker [lnBroken]) 0).worker.conf.Listeners.map
          (fun ln => ln.HTTPServer) =
        [some (newServer (exWorker [lnBroken]) 0 lnBroken.Config)] := by
  decide

/-- C3 as amended.  During preparation, before any resolution step,
`startListeners` stores the server it builds for a listener in that
listener's `HTTPServer`: after every call, whether it returns nil or an
error, every listener holds the server built for it. -/
theorem startListeners_binds_every_listener (c : Worker) (heap : Nat) :
    (startListeners c heap).worker.conf.Listeners.map (fun ln => ln.HTTPServer) =
      (builtServers c heap c.conf.Listeners).map some := by
  rw [(startListeners_eq c heap).2.1]
  exact withServers_servers c _ heap

/-- Counterexample to C8: a read timeout override of -1ns is not zero, yet
the server keeps the default of 30s. -/
theorem negative_override_not_applied :
    negativeReadTimeout.HTTPReadTimeout ≠ 0 ∧
      (newServer (exWorker []) 0 negativeReadTimeout).ReadTimeout = 30 * Second ∧
      (newServer (exWorker []) 0 negativeReadTimeout).ReadTimeout ≠
        (if negativeReadTimeout.HTTPReadTimeout ≠ 0 then negativeReadTimeout.HTTPReadTimeout
          else 30 * Second) := by
  decide

/-- C8 as amended.  Each timeout of the server is its own override when
that override is strictly positive, and otherwise the default: 10s for the
read-header timeout, 30s for the read timeout, 5m for the idle timeout and
0 for the write timeout. -/
theorem newServer_timeouts (c : Worker) (addr : Nat) (cfg : ListenerConfig) :
    (newServer c addr cfg).ReadHeaderTimeout =
        (if cfg.HTTPReadHeaderTimeout > 0 then cfg.HTTPReadHeaderTimeout else 10 * Second) ∧
      (newServer c addr cfg).ReadTimeout =
        (if cfg.HTTPReadTimeout > 0 then cfg.HTTPReadTimeout else 30 * Second) ∧
      (newServer c addr cfg).IdleTimeout =
        (if cfg.HTTPIdleTimeout > 0 then cfg.HTTPIdleTimeout else 5 * Minute) ∧
      (newServer c addr cfg).WriteTimeout =
        (if cfg.HTTPWriteTimeout > 0 then cfg.HTTPWriteTimeout else 0) := by
  unfold newServer
  refine ⟨?_, ?_, ?_, ?_⟩ <;>
    by_cases h1 : cfg.HTTPReadHeaderTimeout > 0 <;>
    by_cases h2 : cfg.HTTPReadTimeout > 0 <;>
    by_cases h3 : cfg.HTTPWriteTimeout > 0 <;>
    by_cases h4 : cfg.HTTPIdleTimeout > 0 <;>
    simp [h1, h2, h3, h4]

/-! ## Independence of the listeners -/

theorem allErrors_append (c : Worker) (xs ys : List ServerListener) :
    allErrors c (xs ++ ys) = allErrors c xs ++ allErrors c ys := by
  induction xs with
  | nil => simp [allErrors]
  | cons x xs ih => simp [allErrors, ih]

theorem allCalls_append (c : Worker) (xs ys : List ServerListener) :
    allCalls c (xs ++ ys) = allCalls c xs ++ allCalls c ys := by
  induction xs with
  | nil => simp [allCalls]
  | cons x xs ih => simp [allCalls, ih]

theorem newServer_addr (c : Worker) (k : Nat) (cfg : ListenerConfig) :
    { newServer c k cfg with addr := 0 } = newServer c 0 cfg := by
  unfold newServer
  by_cases h1 : cfg.HTTPReadHeaderTimeout > 0 <;>
    by_cases h2 : cfg.HTTPReadTimeout > 0 <;>
    by_cases h3 : cfg.HTTPWriteTimeout > 0 <;>
    by_cases h4 : cfg.HTTPIdleTimeout > 0 <;>
    simp [h1, h2, h3, h4]

theorem listenerActions_map (c : Worker) (ln : ServerListener) :
    ∃ ls : List NetListener, ∀ server : HTTPServer,
      listenerActions c server ln = ls.map (fun l => { server := server, l := l }) := by
  unfold listenerActions
  rcases htls : ln.Config.TLSDisable with _ | _
  · exact ⟨protos.filterMap ln.Mux.GetListener ++ (workerSubListener c ln).toList,
      fun _ => by simp⟩
  · rcases hget : ln.Mux.GetListener NoProto with _ | l
    · exact ⟨[], fun _ => by simp⟩
    · exact ⟨l :: (workerSubListener c ln).toList, fun _ => by simp⟩

theorem allActions_addr (c : Worker) (lns : List ServerListener) (k j : Nat) :
    (allActions c k lns).map (fun s => ({ s.server with addr := 0 }, s.l)) =
      (allActions c j lns).map (fun s => ({ s.server with addr := 0 }, s.l)) := by
  induction lns generalizing k j with
  | nil => simp [allActions]
  | cons ln rest ih =>
    obtain ⟨ls, hls⟩ := listenerActions_map c ln
    simp only [allActions, List.map_append, ih (k + 1) (j + 1), hls, List.map_map,
      Function.comp_def, newServer_addr]

/-- C9, independence of the listeners in the preparation loop.  The staged
actions, the aggregated errors and the calls that the loop produces for
`xs ++ ys` are those it produces for `xs` followed by those it produces for
`ys` (whose servers are allocated after those of `xs`); and what it produces
for `ys` does not depend on where its servers are allocated, except for
their addresses. -/
theorem prepare_concat (c : Worker) (heap : Nat) (xs ys : List ServerListener) :
    (prepare c heap PrepState.init (xs ++ ys)).1.servers =
        (prepare c heap PrepState.init xs).1.servers ++
          (prepare c (heap + xs.length) PrepState.init ys).1.servers ∧
      errorsOf (prepare c heap PrepState.init (xs ++ ys)).1.retErr =
        errorsOf (prepare c heap PrepState.init xs).1.retErr ++
          errorsOf (prepare c (heap + xs.length) PrepState.init ys).1.retErr ∧
      (prepare c heap PrepState.init (xs ++ ys)).1.trace =
        (prepare c heap PrepState.init xs).1.trace ++
          (prepare c (heap + xs.length) PrepState.init ys).1.trace ∧
      ∀ k : Nat,
        errorsOf (prepare c k PrepState.init ys).1.retErr =
            errorsOf (prepare c heap PrepState.init ys).1.retErr ∧
          (prepare c k PrepState.init ys).1.trace =
            (prepare c heap PrepState.init ys).1.trace ∧
          (prepare c k PrepState.init ys).1.servers.map
              (fun s => ({ s.server with addr := 0 }, s.l)) =
            (prepare c heap PrepState.init ys).1.servers.map
              (fun s => ({ s.server with addr := 0 }, s.l)) := by
  obtain ⟨s1, s2, s3⟩ :=
    (prepare_splits c ys (heap + xs.length)).1 (prepare c heap PrepState.init xs).1
  rw [prepare_append]
  refine ⟨s2, s1, s3, fun k => ?_⟩
  obtain ⟨a1, a2, a3, _⟩ := prepare_init c ys k
  obtain ⟨b1, b2, b3, _⟩ := prepare_init c ys heap
  rw [a1, a2, a3, b1, b2, b3]
  exact ⟨rfl, rfl, allActions_addr c ys k heap⟩

theorem allErrors_of_resolves (c : Worker) (lns : List ServerListener)
    (h : ∀ x, x ∈ lns → resolves c x = true) : allErrors c lns = [] :=
  (allErrors_eq_nil_iff c lns).2 (fun x hx => (listenerErrors_eq_nil_iff c x).2 (h x hx))

theorem tlsProtoError_injOn (p q : String) (hp : p ∈ protos) (hq : q ∈ protos)
    (hne : q ≠ p) : tlsProtoError q ≠ tlsProtoError p := by
  simp only [protos, List.mem_cons, List.mem_singleton, List.not_mem_nil, or_false] at hp hq
  rcases hp with rfl | rfl | rfl <;> rcases hq with rfl | rfl | rfl <;>
    first
      | exact absurd rfl hne
      | decide

theorem lookupErrors_single (ln : ServerListener) (p : String) (hp : p ∈ protos)
    (hfail : ln.Mux.GetListener p = none)
    (hothers : ∀ q, q ∈ protos → q ≠ p → (ln.Mux.GetListener q).isSome = true) :
    lookupErrors ln protos = [tlsProtoError p] := by
  have key : ∀ q, q ∈ protos →
      (match ln.Mux.GetListener q with
        | none => some (tlsProtoError q)
        | some _ => none) = if q = p then some (tlsProtoError p) else none := by
    intro q hq
    by_cases hqp : q = p
    · subst hqp; simp [hfail]
    · have := hothers q hq hqp
      rcases hg : ln.Mux.GetListener q with _ | l
      · simp [hg] at this
      · simp [hqp]
  have e1 := key "" (by decide)
  have e2 := key "http/1.1" (by decide)
  have e3 := key "h2" (by decide)
  simp only [protos, List.mem_cons, List.mem_singleton, List.not_mem_nil, or_false] at hp
  unfold lookupErrors
  simp only [protos, List.filterMap_cons, List.filterMap_nil, e1, e2, e3]
  rcases hp with rfl | rfl | rfl <;> simp

/-- C7, soft-fail protocol independence.  For a TLS-enabled listener on which
exactly one of the lookups for "", "http/1.1", "h2" returns nil while every
other step of every listener succeeds, `startListeners` returns the aggregate
of exactly one error, whose message names the failed protocol; no error
names a succeeding protocol; and all three lookups, `workerTLS` and
`RegisterProto` are still performed on that listener. -/
theorem startListeners_soft_fail (c : Worker) (heap : Nat)
    (pre post : List ServerListener) (ln : ServerListener) (p : String)
    (hL : c.conf.Listeners = pre ++ ln :: post)
    (hpre : ∀ x, x ∈ pre → resolves c x = true)
    (hpost : ∀ x, x ∈ post → resolves c x = true)
    (htls : ln.Config.TLSDisable = false)
    (hp : p ∈ protos)
    (hfail : ln.Mux.GetListener p = none)
    (hothers : ∀ q, q ∈ protos → q ≠ p → (ln.Mux.GetListener q).isSome = true)
    (hworker : (workerSubListener c ln).isSome = true) :
    (startListeners c heap).err = some { Errors := [tlsProtoError p] } ∧
      (tlsProtoError p).Error = "could not get tls proto " ++ quote p ++ " listener" ∧
      (∀ q, q ∈ protos → q ≠ p → tlsProtoError q ∉ errorsOf (startListeners c heap).err) ∧
      (∀ q, q ∈ protos → Event.GetListener ln.Mux.addr q ∈ (startListeners c heap).trace) ∧
      Event.WorkerTLS (tlsOpts ln) ∈ (startListeners c heap).trace ∧
      ∃ conf, Event.RegisterProto ln.Mux.addr workerProto conf ∈
        (startListeners c heap).trace := by
  obtain ⟨e1, _, e3⟩ := startListeners_eq c heap
  have hln : listenerErrors c ln = [tlsProtoError p] := by
    unfold listenerErrors
    rw [htls, lookupErrors_single ln p hp hfail hothers,
      (workerErrors_eq_nil_iff c ln).2 hworker]
    simp
  have herrs : allErrors c c.conf.Listeners = [tlsProtoError p] := by
    rw [hL, allErrors_append]
    simp only [allErrors]
    rw [allErrors_of_resolves c pre hpre, allErrors_of_resolves c post hpost, hln]
    simp
  have herr : (startListeners c heap).err = some { Errors := [tlsProtoError p] } := by
    rw [e1, herrs]; simp [aggregate]
  have hcalls : ∀ e, e ∈ listenerCalls c ln → e ∈ (startListeners c heap).trace := by
    intro e he
    rw [e3, hL, allCalls_append]
    simp only [allCalls, List.mem_append]
    exact Or.inl (Or.inr (Or.inl he))
  have hlc : listenerCalls c ln =
      protos.map (Event.GetListener ln.Mux.addr) ++ workerCalls c ln := by
    unfold listenerCalls; rw [htls]; simp
  refine ⟨herr, rfl, ?_, ?_, ?_, ?_⟩
  · intro q hq hne
    rw [herr]
    simp only [errorsOf, List.mem_singleton]
    exact tlsProtoError_injOn p q hp hq hne
  · intro q hq
    apply hcalls
    rw [hlc]
    exact List.mem_append_left _ (List.mem_map_of_mem _ hq)
  · apply hcalls
    rw [hlc]
    exact List.mem_append_right _ (by unfold workerCalls; exact List.mem_cons_self _ _)
  · unfold workerSubListener at hworker
    rcases hw : c.workerTLS (tlsOpts ln) with err | ⟨conf, info⟩
    · simp [hw] at hworker
    · refine ⟨conf, hcalls _ ?_⟩
      rw [hlc]
      apply List.mem_append_right
      unfold workerCalls
      rw [hw]
      exact List.mem_cons_of_mem _ (List.mem_cons_self _ _)

/-- Witness of C7: a TLS listener without an "h2" sub-listener between two
listeners that resolve. -/
theorem startListeners_soft_fail_witness :
    (startListeners (exWorker [lnPlain, lnNoH2, lnTLS]) 0).err =
        some { Errors := [tlsProtoError "h2"] } ∧
      (tlsProtoError "h2").Error = "could not get tls proto " ++ quote "h2" ++ " listener" ∧
      (∀ q, q ∈ protos → q ≠ "h2" →
        tlsProtoError q ∉ errorsOf (startListeners (exWorker [lnPlain, lnNoH2, lnTLS]) 0).err) ∧
      (∀ q, q ∈ protos → Event.GetListener lnNoH2.Mux.addr q ∈
        (startListeners (exWorker [lnPlain, lnNoH2, lnTLS]) 0).trace) ∧
      Event.WorkerTLS (tlsOpts lnNoH2) ∈
        (startListeners (exWorker [lnPlain, lnNoH2, lnTLS]) 0).trace ∧
      ∃ conf, Event.RegisterProto lnNoH2.Mux.addr workerProto conf ∈
        (startListeners (exWorker [lnPlain, lnNoH2, lnTLS]) 0).trace :=
  startListeners_soft_fail (exWorker [lnPlain, lnNoH2, lnTLS]) 0 [lnPlain] [lnTLS] lnNoH2 "h2"
    rfl
    (by intro x hx; simp only [List.mem_singleton] at hx; subst hx; decide)
    (by intro x hx; simp only [List.mem_singleton] at hx; subst hx; decide)
    (by decide) (by decide) (by decide)
    (by
      intro q hq hne
      simp only [protos, List.mem_cons, List.mem_singleton, List.not_mem_nil, or_false] at hq
      rcases hq with rfl | rfl | rfl
      · decide
      · decide
      · exact absurd rfl hne)
    (by decide)

/-! ## stopListeners -/

theorem foldl_closeStep (lns : List ServerListener) (st : Option MultiError × List Event) :
    errorsOf (lns.foldl closeStep st).1 = errorsOf st.1 ++ closeErrors lns ∧
      (lns.foldl closeStep st).2 = st.2 ++ lns.map (fun ln => Event.Close ln.Mux.addr) := by
  induction lns generalizing st with
  | nil => simp [closeErrors]
  | cons ln rest ih =>
    obtain ⟨i1, i2⟩ := ih (closeStep st ln)
    simp only [List.foldl_cons]
    rw [i1, i2]
    unfold closeStep closeErrors
    rcases hclose : ln.Mux.Close with _ | err
    · simp [hclose]
    · simp [hclose, errorsOf_Append]

theorem stopListeners_of_shutdownLoop (c : Worker) (sched : Nat → Lag)
    (shut : HTTPServer → Duration → Option GoError) (shutdowns : List Event)
    (h : shutdownLoop c sched shut 0 c.conf.Listeners = some shutdowns) :
    stopListeners c sched shut =
      some { err := aggregate (closeErrors c.conf.Listeners)
             trace := shutdowns ++ c.conf.Listeners.map (fun ln => Event.Close ln.Mux.addr) } := by
  obtain ⟨f1, f2⟩ := foldl_closeStep c.conf.Listeners (none, shutdowns)
  unfold stopListeners
  rw [h]
  simp only [ErrorOrNil_eq_aggregate, f1, f2, errorsOf_none, List.nil_append]

theorem shutdownLoop_of_findsServer (c : Worker) (sched : Nat → Lag)
    (shut : HTTPServer → Duration → Option GoError) (lns : List ServerListener) (i : Nat)
    (h : findsServer sched i lns = true) :
    ∃ shutdowns, shutdownLoop c sched shut i lns = some shutdowns ∧
      shutdowns.all Event.isShutdown = true ∧
      shutdowns.length = lns.countP (fun ln => ln.HTTPServer.isSome) := by
  induction lns generalizing i with
  | nil => exact ⟨[], by simp [shutdownLoop]⟩
  | cons ln rest ih =>
    simp only [findsServer, Bool.and_eq_true] at h
    obtain ⟨sd, h1, h2, h3⟩ := ih (i + 1) h.2
    rcases hs : ln.HTTPServer with _ | server
    · exact ⟨sd, by simp [shutdownLoop, hs, h1], h2, by simp [hs, h3]⟩
    · have hfound := h.1
      rw [hs] at hfound
      simp only at hfound
      rcases ho : (loopVarAfter ln rest ((sched i).first + (sched i).more)).HTTPServer with
        _ | observed
      · simp [ho] at hfound
      · refine ⟨_ :: sd, by simp [shutdownLoop, hs, ho, h1]; rfl, ?_, by simp [hs, h3]⟩
        simp [Event.isShutdown, List.all_cons]
        simpa [List.all_eq_true] using h2

theorem shutdownLoop_none_of_not_findsServer (c : Worker) (sched : Nat → Lag)
    (shut : HTTPServer → Duration → Option GoError) (lns : List ServerListener) (i : Nat)
    (h : findsServer sched i lns = false) : shutdownLoop c sched shut i lns = none := by
  induction lns generalizing i with
  | nil => simp [findsServer] at h
  | cons ln rest ih =>
    simp only [findsServer, Bool.and_eq_false_iff] at h
    rcases hs : ln.HTTPServer with _ | server
    · rcases h with h | h
      · simp [hs] at h
      · simp [shutdownLoop, hs, ih (i + 1) h]
    · rcases ho : (loopVarAfter ln rest ((sched i).first + (sched i).more)).HTTPServer with
        _ | observed
      · simp [shutdownLoop, hs, ho]
      · rcases h with h | h
        · simp [hs, ho] at h
        · simp [shutdownLoop, hs, ho, ih (i + 1) h]

theorem loopVarAfter_zero (ln : ServerListener) (rest : List ServerListener) :
    loopVarAfter ln rest 0 = ln := by
  simp [loopVarAfter]

theorem shutdownLoop_promptly (c : Worker) (shut : HTTPServer → Duration → Option GoError)
    (lns : List ServerListener) (i : Nat) :
    shutdownLoop c promptly shut i lns = some (ownShutdowns c shut lns) := by
  induction lns generalizing i with
  | nil => simp [shutdownLoop, ownShutdowns]
  | cons ln rest ih =>
    have ih' := ih (i + 1)
    unfold ownShutdowns at ih'
    rcases hs : ln.HTTPServer with _ | server
    · simp [shutdownLoop, ownShutdowns, hs, ih']
    · simp [shutdownLoop, ownShutdowns, hs, ih', promptly, loopVarAfter_zero]

theorem findsServer_promptly (lns : List ServerListener) (i : Nat) :
    findsServer promptly i lns = true := by
  induction lns generalizing i with
  | nil => simp [findsServer]
  | cons ln rest ih =>
    rcases hs : ln.HTTPServer with _ | server <;>
      simp [findsServer, hs, ih, promptly, loopVarAfter_zero]

theorem findsServer_of_no_server (sched : Nat → Lag) (lns : List ServerListener) (i : Nat)
    (h : lns.all (fun ln => ln.HTTPServer.isNone) = true) :
    findsServer sched i lns = true := by
  induction lns generalizing i with
  | nil => simp [findsServer]
  | cons ln rest ih =>
    simp only [List.all_cons, Bool.and_eq_true] at h
    rcases hs : ln.HTTPServer with _ | server
    · simp [findsServer, hs, ih (i + 1) h.2]
    · simp [hs] at h

theorem loopVarAfter_mem (ln : ServerListener) (rest : List ServerListener) (k : Nat) :
    loopVarAfter ln rest k ∈ ln :: rest := by
  unfold loopVarAfter
  have hlt : min k rest.length < (ln :: rest).length := by
    simp only [List.length_cons]; omega
  rw [List.getD_eq_getElem _ _ hlt]
  exact List.getElem_mem _

theorem findsServer_of_all_servers (sched : Nat → Lag) (lns : List ServerListener) (i : Nat)
    (h : lns.all (fun ln => ln.HTTPServer.isSome) = true) :
    findsServer sched i lns = true := by
  induction lns generalizing i with
  | nil => simp [findsServer]
  | cons ln rest ih =>
    have hall := List.all_eq_true.1 h
    simp only [List.all_cons, Bool.and_eq_true] at h
    have hobs := hall _ (loopVarAfter_mem ln rest ((sched i).first + (sched i).more))
    rcases hs : ln.HTTPServer with _ | server
    · simp [hs] at h
    · simp [findsServer, hs, hobs, ih (i + 1) h.2]

theorem shutdownLoop_no_server (c : Worker) (sched : Nat → Lag)
    (shut : HTTPServer → Duration → Option GoError) (lns : List ServerListener) (i : Nat)
    (h : lns.all (fun ln => ln.HTTPServer.isNone) = true) :
    shutdownLoop c sched shut i lns = some [] := by
  induction lns generalizing i with
  | nil => simp [shutdownLoop]
  | cons ln rest ih =>
    simp only [List.all_cons, Bool.and_eq_true] at h
    rcases hs : ln.HTTPServer with _ | server
    · simp [shutdownLoop, hs, ih (i + 1) h.2]
    · simp [hs] at h

theorem aggregate_eq_none_iff (lns : List ServerListener) :
    aggregate (closeErrors lns) = none ↔ lns.all (fun ln => ln.Mux.Close.isNone) = true := by
  unfold aggregate closeErrors
  rw [List.all_eq_true]
  constructor
  · intro h ln hln
    by_cases hnil : List.filterMap (fun ln : ServerListener => ln.Mux.Close) lns = []
    · have := List.filterMap_eq_nil_iff.1 hnil ln hln
      simp [this]
    · simp [hnil] at h
  · intro h
    have hnil : List.filterMap (fun ln : ServerListener => ln.Mux.Close) lns = [] := by
      rw [List.filterMap_eq_nil_iff]
      intro ln hln
      have := h ln hln
      rcases hc : ln.Mux.Close with _ | err
      · rfl
      · simp [hc] at this
    simp [hnil]

theorem stopListeners_promptly (c : Worker) (shut : HTTPServer → Duration → Option GoError) :
    stopListeners c promptly shut =
      some { err := aggregate (closeErrors c.conf.Listeners)
             trace := ownShutdowns c shut c.conf.Listeners ++
               c.conf.Listeners.map (fun ln => Event.Close ln.Mux.addr) } :=
  stopListeners_of_shutdownLoop c promptly shut _ (shutdownLoop_promptly c shut _ 0)

theorem closes_filter (lns : List ServerListener) :
    (lns.map (fun ln => Event.Close ln.Mux.addr)).filter Event.isClose =
      lns.map (fun ln => Event.Close ln.Mux.addr) := by
  induction lns with
  | nil => simp
  | cons ln rest ih => simp [List.filter, Event.isClose, ih]

theorem shutdowns_filter_isClose (es : List Event) (h : es.all Event.isShutdown = true) :
    es.filter Event.isClose = [] := by
  rw [List.filter_eq_nil_iff]
  intro e he
  have := List.all_eq_true.1 h e he
  cases e <;> simp [Event.isShutdown, Event.isClose] at this ⊢

/-! ## Claims on stopListeners -/

/-- The shutdown result when no goroutine panics.  Whenever the shutdown
goroutines all find a server to shut down (which holds for every
configuration when each goroutine reads the listener of its own iteration,
and under every schedule when all listeners hold a server or none does),
`stopListeners` calls `Close` on the multiplexer of every configured listener
exactly once, in order, after the `Shutdown` calls; it returns nil exactly
when every `Close` returned nil and otherwise the aggregate of the non-nil
`Close` errors in listener order; and the returned value is the same whatever
the `Shutdown` calls return. -/
theorem stopListeners_result (c : Worker) (sched : Nat → Lag)
    (shut : HTTPServer → Duration → Option GoError)
    (h : findsServer sched 0 c.conf.Listeners = true) :
    (∃ shutdowns, shutdowns.all Event.isShutdown = true ∧
      stopListeners c sched shut =
        some { err := aggregate (closeErrors c.conf.Listeners)
               trace := shutdowns ++
                 c.conf.Listeners.map (fun ln => Event.Close ln.Mux.addr) }) ∧
      (stopListeners c sched shut).map (fun r => r.trace.filter Event.isClose) =
        some (c.conf.Listeners.map (fun ln => Event.Close ln.Mux.addr)) ∧
      (aggregate (closeErrors c.conf.Listeners) = none ↔
        c.conf.Listeners.all (fun ln => ln.Mux.Close.isNone) = true) ∧
      (aggregate (closeErrors c.conf.Listeners) ≠ none →
        aggregate (closeErrors c.conf.Listeners) =
          some { Errors := c.conf.Listeners.filterMap (fun ln => ln.Mux.Close) }) ∧
      ∀ shut2 : HTTPServer → Duration → Option GoError,
        (stopListeners c sched shut2).map (fun r => r.err) =
          some (aggregate (closeErrors c.conf.Listeners)) := by
  obtain ⟨sd, h1, h2, _⟩ := shutdownLoop_of_findsServer c sched shut _ 0 h
  have hstop := stopListeners_of_shutdownLoop c sched shut sd h1
  refine ⟨⟨sd, h2, hstop⟩, ?_, aggregate_eq_none_iff _, ?_, ?_⟩
  · rw [hstop]
    simp only [Option.map_some', List.filter_append, closes_filter,
      shutdowns_filter_isClose sd h2, List.nil_append]
  · intro hne
    unfold aggregate at hne ⊢
    by_cases hnil : closeErrors c.conf.Listeners = []
    · simp [hnil] at hne
    · rw [if_neg hnil]; rfl
  · intro shut2
    obtain ⟨sd2, k1, _, _⟩ := shutdownLoop_of_findsServer c sched shut2 _ 0 h
    rw [stopListeners_of_shutdownLoop c sched shut2 sd2 k1]
    rfl

/-- The shutdown result at a started listener whose `Shutdown` and `Close`
fail, a listener without a server, and a listener without a server whose
`Close` fails, each goroutine reading the listener of its own iteration. -/
theorem stopListeners_result_witness :
    findsServer promptly 0 mixedTrio.conf.Listeners = true ∧
    ((∃ shutdowns, shutdowns.all Event.isShutdown = true ∧
      stopListeners mixedTrio promptly shutdownFails =
        some { err := aggregate (closeErrors mixedTrio.conf.Listeners)
               trace := shutdowns ++
                 mixedTrio.conf.Listeners.map
                   (fun ln => Event.Close ln.Mux.addr) }) ∧
      (stopListeners mixedTrio promptly shutdownFails).map
          (fun r => r.trace.filter Event.isClose) =
        some (mixedTrio.conf.Listeners.map (fun ln => Event.Close ln.Mux.addr)) ∧
      (aggregate (closeErrors mixedTrio.conf.Listeners) = none ↔
        mixedTrio.conf.Listeners.all
          (fun ln => ln.Mux.Close.isNone) = true) ∧
      (aggregate (closeErrors mixedTrio.conf.Listeners) ≠ none →
        aggregate (closeErrors mixedTrio.conf.Listeners) =
          some { Errors := mixedTrio.conf.Listeners.filterMap (fun ln => ln.Mux.Close) }) ∧
      ∀ shut2 : HTTPServer → Duration → Option GoError,
        (stopListeners mixedTrio promptly shut2).map
            (fun r => r.err) =
          some (aggregate (closeErrors mixedTrio.conf.Listeners))) :=
  ⟨by decide,
    stopListeners_result mixedTrio promptly shutdownFails
      (by decide)⟩

/-- C4 at its failing input.  A started listener followed by two listeners
without a server, the shutdown goroutine first running after the loop has
finished: it reads the last listener from the shared range variable, whose
`HTTPServer` is nil, and calls `Shutdown` through that nil pointer, which
panics; `stopListeners` does not return and calls `Close` on no multiplexer,
where the claim requires one `Close` per configured listener, listeners
without a server included, and the aggregate of the `Close` errors. -/
theorem close_skipped_after_nil_shutdown :
    mixedTrio.conf.Listeners.map (fun ln => ln.HTTPServer.isSome) = [true, false, false] ∧
      mixedTrio.conf.Listeners.map (fun ln => ln.Mux.Close.isSome) = [true, false, true] ∧
      findsServer (afterLoop 3) 0 mixedTrio.conf.Listeners = false ∧
      stopListeners mixedTrio (afterLoop 3) shutdownFails = none ∧
      (stopListeners mixedTrio (afterLoop 3) shutdownFails).map
          (fun r => r.trace.filter Event.isClose) ≠
        some (mixedTrio.conf.Listeners.map (fun ln => Event.Close ln.Mux.addr)) := by
  decide

/-- Counterexample to C5: after a `startListeners` that returned an error, no
listener is running, yet `stopListeners` calls `Shutdown` on the server
stored during preparation, and it returns the error of the failing `Close`
rather than nil.  (With one listener every schedule gives this run.) -/
theorem stop_after_failed_start :
    (startListeners (exWorker [lnBroken]) 0).err ≠ none ∧
      (startListeners (exWorker [lnBroken]) 0).trace.filter Event.isServe = [] ∧
      stopListeners (startListeners (exWorker [lnBroken]) 0).worker promptly shutdownOk =
        some { err := some { Errors := [.text "close failed"] }
               trace := [Event.Shutdown (newServer (exWorker []) 0 lnBroken.Config) 1 Second none,
                 Event.Close 4] } := by
  decide

/-- C5 as amended.  When every listener's `HTTPServer` is nil (no
`startListeners` call has been made), `stopListeners`, under every schedule,
calls no `Shutdown`: it calls `Close` once on every multiplexer, and returns
nil exactly when every `Close` returns nil, the aggregate of the `Close`
errors otherwise. -/
theorem stopListeners_before_start (c : Worker) (sched : Nat → Lag)
    (shut : HTTPServer → Duration → Option GoError)
    (h : c.conf.Listeners.all (fun ln => ln.HTTPServer.isNone) = true) :
    stopListeners c sched shut =
        some { err := aggregate (closeErrors c.conf.Listeners)
               trace := c.conf.Listeners.map (fun ln => Event.Close ln.Mux.addr) } ∧
      (aggregate (closeErrors c.conf.Listeners) = none ↔
        c.conf.Listeners.all (fun ln => ln.Mux.Close.isNone) = true) := by
  refine ⟨?_, aggregate_eq_none_iff _⟩
  rw [stopListeners_of_shutdownLoop c sched shut [] (shutdownLoop_no_server c sched shut _ 0 h)]
  simp

/-- Witness of C5 as amended: two listeners that were never started, the
second with a failing `Close`, the goroutines scheduled after the loop. -/
theorem stopListeners_before_start_witness :
    unstartedPair.conf.Listeners.all (fun ln => ln.HTTPServer.isNone) = true ∧
    (stopListeners unstartedPair (afterLoop 2) shutdownFails =
        some { err := aggregate (closeErrors unstartedPair.conf.Listeners)
               trace := unstartedPair.conf.Listeners.map
                 (fun ln => Event.Close ln.Mux.addr) } ∧
      (aggregate (closeErrors unstartedPair.conf.Listeners) = none ↔
        unstartedPair.conf.Listeners.all
          (fun ln => ln.Mux.Close.isNone) = true)) :=
  ⟨by decide,
    stopListeners_before_start unstartedPair (afterLoop 2) shutdownFails
      (by decide)⟩

/-- C6 at its failing input.  Two started listeners with maximum request
durations 1s and 2s, the shutdown goroutines first running after the loop has
finished: both goroutines read the last listener from the shared range
variable, so `Shutdown` is called twice on the second listener's server with
the second listener's 2s, and never on the first listener's server; the claim
requires one call per listener on its own server with its own duration. -/
theorem shutdown_reads_last_listener :
    startedPair.conf.Listeners.map (fun ln => (ln.HTTPServer, ln.Config.MaxRequestDuration)) =
        [(some serverPlain, Second), (some serverTLS, 2 * Second)] ∧
      (stopListeners startedPair (afterLoop 2) shutdownOk).map
          (fun r => r.trace.filter Event.isShutdown) =
        some [Event.Shutdown serverTLS 1 (2 * Second) none,
          Event.Shutdown serverTLS 1 (2 * Second) none] ∧
      ownShutdowns startedPair shutdownOk startedPair.conf.Listeners =
        [Event.Shutdown serverPlain 1 Second none,
          Event.Shutdown serverTLS 1 (2 * Second) none] ∧
      serverPlain ≠ serverTLS := by
  decide

/-- C10 at its failing input.  After a `startListeners` that returns nil on
two listeners, the serve loops run on the two servers stored in the
listeners, one server per listener; with the shutdown goroutines first
running after the loop has finished, `stopListeners` shuts down only the
second server, twice, and the first server keeps its serve loops. -/
theorem served_server_not_shut_down :
    (startListeners (exWorker [lnPlain, lnTLS]) 0).err = none ∧
      servedServers (startListeners (exWorker [lnPlain, lnTLS]) 0).trace =
        [serverPlain, serverPlain, serverTLS, serverTLS, serverTLS, serverTLS] ∧
      startedPair.conf.Listeners.map (fun ln => ln.HTTPServer) =
        [some serverPlain, some serverTLS] ∧
      (stopListeners startedPair (afterLoop 2) shutdownOk).map
          (fun r => shutdownServers r.trace) = some [serverTLS, serverTLS] ∧
      serverPlain ∉ [serverTLS, serverTLS] := by
  decide

end Listeners
